import Mathlib

/-!
Shallow embedding of the gopybara/httpbara routing engine.

The embedding follows the Go source:
  * `parseRouteTag`, `parseMiddlewaresTag`, `parseGroupTag` — the tag parser
    (`Handler.parseRouteTag` and friends).
  * `Route`, `Group`, `Middleware`, `Handler` — the descriptor data model.
  * `flatHandlers` / `applyRoute` / `applyHandlers` — the composition engine
    (`core.flatHandlers`, `core.applyHandlers` in casual.go).
  * `ActiveTaskTracker` — the graceful-shutdown concurrency primitive; its
    atomic operations are modelled as a sequential state machine (the atomic
    counter is an `Int`; the Go source uses a 32-bit atomic whose wrap-around
    is unreachable under the tracker's paired start/finish discipline and is
    irrelevant to every claim below).
  * `Casual.NewHTTPResponse` / `Casual.NewHttpErrorResponse` — the response
    envelope builders of the casual package.

Gin handler functions are opaque to the engine (it only stores and orders
them), so they are modelled by `Nat` identifiers.
-/

namespace Httpbara

/-- GinHandler abstracts `gin.HandlerFunc`: the composition engine never calls
or inspects a handler, it only arranges handlers in call chains, so a handler
is modelled by an opaque identifier. -/
abbrev GinHandler := Nat

/-- Route mirrors the Go struct `Route` (part_005): HTTP method, path, a
group-name reference, a list of middleware-name references and the terminal
handler. -/
structure Route where
  middlewares : List String
  group : String
  method : String
  path : String
  handler : GinHandler
deriving DecidableEq, Repr

/-- CasualRoute mirrors the Go struct `casualRoute` (casual.go): like `Route`
but the handler is the typed casual method; `handler` here stands for the
adapter callback `cb` that `core.flatHandlers` builds around the typed
method. -/
structure CasualRoute where
  middlewares : List String
  group : String
  method : String
  path : String
  handler : GinHandler
deriving DecidableEq, Repr

/-- Group mirrors the Go struct `Group`: derived lowercase name, path prefix
and middleware-name references. -/
structure Group where
  name : String
  Path : String
  middlewares : List String
deriving DecidableEq, Repr

/-- Middleware mirrors the Go struct `Middleware`: handler, lowercase name and
nested middleware-name references. -/
structure Middleware where
  handler : GinHandler
  middleware : String
  middlewares : List String
deriving DecidableEq, Repr

/-- Handler mirrors the Go struct `Handler` (part_005): the container of
descriptors discovered from one handler structure. -/
structure Handler where
  routes : List Route
  casualRoutes : List CasualRoute
  groups : List Group
  middlewares : List Middleware
deriving DecidableEq, Repr

/-- isReLetter is the character class `[A-Z]` of the route-tag regexp under
the `(?i)` flag.  Go's RE2 compiles a case-insensitive class by folding in the
full `unicode.SimpleFold` orbit of every rune, so `(?i)[A-Z]` matches the
ASCII letters of both cases plus U+017F LATIN SMALL LETTER LONG S (the fold
orbit of S/s) and U+212A KELVIN SIGN (the fold orbit of K/k); no other rune
folds into A-Z. -/
def isReLetter (c : Char) : Bool :=
  ('A' ≤ c && c ≤ 'Z') || ('a' ≤ c && c ≤ 'z') || c == '\u017F' || c == '\u212A'

/-- routeTagCapture models `regexp.MustCompile("(?i)^([A-Z]{3,10}) (.*)$").FindStringSubmatch tag`
returning the two capture groups.  RE2 semantics of that pattern: the match is
anchored on both sides, `(?i)[A-Z]` is an ASCII letter of either case, `.`
matches every character except a newline, and `$` (without `(?m)`) matches
only at the end of the text.  Because a space is not a letter, the first
capture group can only be the maximal leading letter run, and it must be
followed by the first space of the string; the second group is the whole
remainder, which must contain no newline.  The letter class is the
case-folded one (see `isReLetter`). -/
def routeTagCapture (tag : String) : Option (String × String) :=
  let m := tag.data.takeWhile isReLetter
  let rest := tag.data.dropWhile isReLetter
  match rest with
  | b :: tail =>
      if b = ' ' then
        if 3 ≤ m.length && m.length ≤ 10 && tail.all (fun c => c ≠ '\n') then
          some (⟨m⟩, ⟨tail⟩)
        else none
      else none
  | [] => none

/-- parseRouteTag mirrors `Handler.parseRouteTag` (part_005): on a regexp
match it returns `(matches[1], matches[2])`, otherwise the error
"invalid route tag". -/
def parseRouteTag (tag : String) : Except String (String × String) :=
  match routeTagCapture tag with
  | some (m, p) => .ok (m, p)
  | none => .error "invalid route tag"

example : parseRouteTag "GET /foo" = .ok ("GET", "/foo") := rfl
example : parseRouteTag "post /bar/baz" = .ok ("post", "/bar/baz") := rfl
example : parseRouteTag "AB /x" = .error "invalid route tag" := rfl
example : parseRouteTag "GETFOO" = .error "invalid route tag" := rfl
example : parseRouteTag "GET a b" = .ok ("GET", "a b") := rfl
example : parseRouteTag "\u212A\u212A\u212A /x" = .ok ("\u212A\u212A\u212A", "/x") := rfl
example : parseRouteTag "wei\u017F /x" = .ok ("wei\u017F", "/x") := rfl

/-- parseMiddlewaresTag mirrors `Handler.parseMiddlewaresTag`: split the tag
on commas, trim whitespace, drop empties, lowercase. -/
def parseMiddlewaresTag (tag : String) : List String :=
  ((tag.split (fun c => c = ',')).map String.trim).filterMap
    (fun v => if v = "" then none else some v.toLower)

/-- trimSuffixGo mirrors Go `strings.TrimSuffix`: remove one occurrence of the
suffix if present, otherwise return the string unchanged. -/
def trimSuffixGo (s suffix : String) : String :=
  if suffix.data.isSuffixOf s.data then
    ⟨s.data.take (s.data.length - suffix.data.length)⟩
  else s

/-- trimPrefixGo mirrors Go `strings.TrimPrefix`: remove one occurrence of the
leading prefix if present, otherwise return the string unchanged. -/
def trimPrefixGo (s pre : String) : String :=
  if pre.data.isPrefixOf s.data then ⟨s.data.drop pre.data.length⟩ else s

example : trimSuffixGo "/api/v3/" "/" = "/api/v3" := rfl
example : trimPrefixGo "products" "/" = "products" := rfl

/-- CoreState mirrors the maps and the route slice of the Go struct `core`
after `flatHandlers`: `flatGroups` and `flatMiddlewares` are Go maps (modelled
as lookup functions), `flatRoutes` is the flattened route slice. -/
structure CoreState where
  flatGroups : String → Option Group
  flatMiddlewares : String → Option Middleware
  flatRoutes : List Route

/-- updMap is Go map assignment `m[k] = v`. -/
def updMap (m : String → Option α) (k : String) (v : α) : String → Option α :=
  fun s => if s = k then some v else m s

/-- casualToRoute is the `Route{...}` literal that `core.flatHandlers` appends
for every casual route (casual.go:268-274): method, path, middlewares and
group are copied verbatim, and the handler is the adapter callback. -/
def casualToRoute (cr : CasualRoute) : Route :=
  { middlewares := cr.middlewares, group := cr.group, method := cr.method,
    path := cr.path, handler := cr.handler }

/-- flatHandlersStep is one iteration of the `for _, handler := range handlers`
loop of `core.flatHandlers` (casual.go:170-285): routes (plain first, then the
converted casual routes) are appended, groups are written into `flatGroups`
keyed by their derived name, middlewares are written into `flatMiddlewares`
keyed by `strings.ToLower(middleware.middleware)`. -/
def flatHandlersStep (st : CoreState) (h : Handler) : CoreState :=
  { flatRoutes := st.flatRoutes ++ h.routes ++ h.casualRoutes.map casualToRoute
    flatGroups := h.groups.foldl (fun g grp => updMap g grp.name grp) st.flatGroups
    flatMiddlewares :=
      h.middlewares.foldl (fun m mw => updMap m mw.middleware.toLower mw) st.flatMiddlewares }

/-- emptyCore is the freshly constructed `core` of `New`: empty maps and an
empty route slice. -/
def emptyCore : CoreState := ⟨fun _ => none, fun _ => none, []⟩

/-- flatHandlers mirrors `core.flatHandlers` applied to the handler list. -/
def flatHandlers (hs : List Handler) : CoreState :=
  hs.foldl flatHandlersStep emptyCore

/-- Warning models the four `c.log.Warn` calls of `core.applyHandlers`, with
their logged fields. -/
inductive Warning where
  | groupNotFound (path group : String)
  | groupMwNotFound (middlewareToSkip group : String)
  | mwOfMwNotFound (route middlewareToSkip parentMiddleware : String)
  | routeMwNotFound (route middlewareToSkip : String)
deriving DecidableEq, Repr

/-- isGroupWarning selects the warnings emitted by the group-resolution block
of `core.applyHandlers` (casual.go:316-336). -/
def isGroupWarning : Warning → Bool
  | .groupNotFound _ _ => true
  | .groupMwNotFound _ _ => true
  | _ => false

/-- RouteAccum is the loop state of the route-middleware loop of
`core.applyHandlers` (casual.go:338-363): the handler stack, the warnings
emitted so far and the `appliedMiddlewares` names. -/
structure RouteAccum where
  stack : List GinHandler
  warnings : List Warning
  applied : List String
deriving DecidableEq, Repr

/-- routeMwStep is one iteration of `for _, middleware := range route.middlewares`
(casual.go:339-363): resolve the name; on success record the middleware's name,
append the handler of every resolvable nested middleware (warning for the
rest), then append the middleware's own handler; on failure warn and skip. -/
def routeMwStep (M : String → Option Middleware) (path : String)
    (acc : RouteAccum) (name : String) : RouteAccum :=
  match M name with
  | some mw =>
      let acc1 : RouteAccum := { acc with applied := acc.applied ++ [mw.middleware] }
      let acc2 := mw.middlewares.foldl
        (fun a m =>
          match M m with
          | some mw2 => { a with stack := a.stack ++ [mw2.handler] }
          | none =>
              { a with warnings := a.warnings ++ [Warning.mwOfMwNotFound path m mw.middleware] })
        acc1
      { acc2 with stack := acc2.stack ++ [mw.handler] }
  | none => { acc with warnings := acc.warnings ++ [Warning.routeMwNotFound path name] }

/-- Applied is the outcome of `core.applyHandlers` for one route: the final
path, the `handleStack` passed to the transport engine, the warnings and the
`appliedMiddlewares` list of the info record. -/
structure Applied where
  path : String
  stack : List GinHandler
  warnings : List Warning
  applied : List String
deriving DecidableEq, Repr

/-- applyRoute is the body of the `for _, route := range c.flatRoutes` loop of
`core.applyHandlers` (casual.go:305-379).  The root-middleware loop
(casual.go:309-313) reads `for mw := range c.rootMiddlewares { for middleware
:= range mw.middlewares { append(handleStack, middleware.handler) } }`; the
elements of `mw.middlewares` expose a `handler` field, so the configured root
entries are `*Handler` bundles (`Handler.middlewares` is the repository's only
`middlewares` field holding `*Middleware` values; the examples pass the
`*Handler` results of `NewAccessLogMiddleware` / `NewOtelMiddleware` to
`WithRootMiddlewares`).  Only the contained middlewares' own handlers are
appended for roots — their nested references are never consulted. -/
def applyRoute (G : String → Option Group) (M : String → Option Middleware)
    (rootMiddlewares : List Handler) (route : Route) : Applied :=
  let stack0 : List GinHandler :=
    rootMiddlewares.foldl
      (fun s mw => mw.middlewares.foldl (fun s2 middleware => s2 ++ [middleware.handler]) s) []
  let pw : String × List GinHandler × List Warning :=
    if route.group ≠ "" then
      match G route.group with
      | some group =>
          let p := trimSuffixGo group.Path "/" ++ "/" ++ trimPrefixGo route.path "/"
          let sw := group.middlewares.foldl
            (fun (a : List GinHandler × List Warning) m =>
              match M m with
              | some mw => (a.1 ++ [mw.handler], a.2)
              | none => (a.1, a.2 ++ [Warning.groupMwNotFound m route.group]))
            (stack0, [])
          (p, sw.1, sw.2)
      | none => (route.path, stack0, [Warning.groupNotFound route.path route.group])
    else (route.path, stack0, [])
  let acc := route.middlewares.foldl (routeMwStep M pw.1) ⟨pw.2.1, pw.2.2, []⟩
  { path := pw.1, stack := acc.stack ++ [route.handler],
    warnings := acc.warnings, applied := acc.applied }

/-- Registration is one `c.gin.Handle(method, path, handleStack...)` (or
`c.gin.Any`) call. -/
structure Registration where
  method : String
  path : String
  stack : List GinHandler
deriving DecidableEq, Repr

/-- routeRegistration is the `c.gin.Handle` argument triple computed for one
route. -/
def routeRegistration (st : CoreState) (rootMiddlewares : List Handler) (route : Route) :
    Registration :=
  { method := route.method,
    path := (applyRoute st.flatGroups st.flatMiddlewares rootMiddlewares route).path,
    stack := (applyRoute st.flatGroups st.flatMiddlewares rootMiddlewares route).stack }

/-- applyHandlers mirrors `core.applyHandlers`: every flattened route produces
exactly one registration against the transport engine. -/
def applyHandlers (st : CoreState) (rootMiddlewares : List Handler) : List Registration :=
  st.flatRoutes.map (routeRegistration st rootMiddlewares)

/-- rootChainPart: the handlers contributed by the configured root entries —
for each root bundle, the handlers of its contained middlewares in declared
order (and nothing else). -/
def rootChainPart (roots : List Handler) : List GinHandler :=
  roots.flatMap (fun h => h.middlewares.map (fun m => m.handler))

/-- expandPart: the handlers of the resolvable names of a name list, skipping
unresolved names. -/
def expandPart (M : String → Option Middleware) (names : List String) : List GinHandler :=
  names.filterMap (fun m => (M m).map (fun mw => mw.handler))

/-- groupChainPart: the handlers contributed by a route's group — the group's
resolvable middlewares, directly (no nested expansion); empty when the route
has no group or the group is unresolved. -/
def groupChainPart (G : String → Option Group) (M : String → Option Middleware)
    (route : Route) : List GinHandler :=
  if route.group = "" then []
  else
    match G route.group with
    | some g => expandPart M g.middlewares
    | none => []

/-- routeChainPart: the handlers contributed by the route's own middleware
references — for each resolvable reference, its resolvable nested middlewares
followed by the middleware itself; unresolved references contribute nothing. -/
def routeChainPart (M : String → Option Middleware) (names : List String) : List GinHandler :=
  names.flatMap (fun n =>
    match M n with
    | some mw => expandPart M mw.middlewares ++ [mw.handler]
    | none => [])

/-- groupWarnPart: the warnings of the group-middleware loop. -/
def groupWarnPart (M : String → Option Middleware) (groupName : String)
    (names : List String) : List Warning :=
  names.filterMap (fun m =>
    if (M m).isSome then none else some (.groupMwNotFound m groupName))

/-- groupWarnChain: the warnings of the whole group-resolution block. -/
def groupWarnChain (G : String → Option Group) (M : String → Option Middleware)
    (route : Route) : List Warning :=
  if route.group = "" then []
  else
    match G route.group with
    | some g => groupWarnPart M route.group g.middlewares
    | none => [.groupNotFound route.path route.group]

/-- routeWarnPart: the warnings of the route-middleware loop. -/
def routeWarnPart (M : String → Option Middleware) (path : String)
    (names : List String) : List Warning :=
  names.flatMap (fun n =>
    match M n with
    | some mw =>
        mw.middlewares.filterMap (fun m =>
          if (M m).isSome then none else some (.mwOfMwNotFound path m mw.middleware))
    | none => [.routeMwNotFound path n])

/-- routeAppliedPart: the `appliedMiddlewares` names logged for a route. -/
def routeAppliedPart (M : String → Option Middleware) (names : List String) : List String :=
  names.filterMap (fun n => (M n).map (fun mw => mw.middleware))

/-- effectivePath: the path under which a route is registered. -/
def effectivePath (G : String → Option Group) (route : Route) : String :=
  if route.group = "" then route.path
  else
    match G route.group with
    | some g => trimSuffixGo g.Path "/" ++ "/" ++ trimPrefixGo route.path "/"
    | none => route.path

theorem foldl_append_singleton (f : α → β) :
    ∀ (l : List α) (s : List β),
      l.foldl (fun acc x => acc ++ [f x]) s = s ++ l.map f := by
  intro l
  induction l with
  | nil => intro s; simp
  | cons x t ih => intro s; simp [ih]

theorem rootStack_eq (roots : List Handler) :
    ∀ s : List GinHandler,
      roots.foldl
        (fun s mw => mw.middlewares.foldl (fun s2 middleware => s2 ++ [middleware.handler]) s) s
      = s ++ rootChainPart roots := by
  induction roots with
  | nil => intro s; simp [rootChainPart]
  | cons h t ih =>
      intro s
      simp only [List.foldl_cons]
      rw [foldl_append_singleton (fun m : Middleware => m.handler) h.middlewares s, ih]
      simp [rootChainPart]

theorem groupFold_eq (M : String → Option Middleware) (gname : String) :
    ∀ (names : List String) (s : List GinHandler) (w : List Warning),
      names.foldl
        (fun (a : List GinHandler × List Warning) m =>
          match M m with
          | some mw => (a.1 ++ [mw.handler], a.2)
          | none => (a.1, a.2 ++ [Warning.groupMwNotFound m gname])) (s, w)
      = (s ++ expandPart M names, w ++ groupWarnPart M gname names) := by
  intro names
  induction names with
  | nil => intro s w; simp [expandPart, groupWarnPart]
  | cons n t ih =>
      intro s w
      simp only [List.foldl_cons]
      cases hM : M n with
      | some mw => simp [hM, ih, expandPart, groupWarnPart]
      | none => simp [hM, ih, expandPart, groupWarnPart]

theorem innerFold_eq (M : String → Option Middleware) (path parent : String) :
    ∀ (names : List String) (a : RouteAccum),
      names.foldl
        (fun a m =>
          match M m with
          | some mw2 => { a with stack := a.stack ++ [mw2.handler] }
          | none =>
              { a with warnings := a.warnings ++ [Warning.mwOfMwNotFound path m parent] }) a
      = { a with
          stack := a.stack ++ expandPart M names,
          warnings := a.warnings ++ names.filterMap (fun m =>
            if (M m).isSome then none else some (.mwOfMwNotFound path m parent)) } := by
  intro names
  induction names with
  | nil => intro a; simp [expandPart]
  | cons n t ih =>
      intro a
      simp only [List.foldl_cons]
      cases hM : M n with
      | some mw => simp [hM, ih, expandPart]
      | none => simp [hM, ih, expandPart]

theorem routeMwFold_eq (M : String → Option Middleware) (path : String) :
    ∀ (names : List String) (acc : RouteAccum),
      names.foldl (routeMwStep M path) acc
      = { stack := acc.stack ++ routeChainPart M names,
          warnings := acc.warnings ++ routeWarnPart M path names,
          applied := acc.applied ++ routeAppliedPart M names } := by
  intro names
  induction names with
  | nil => intro acc; simp [routeChainPart, routeWarnPart, routeAppliedPart]
  | cons n t ih =>
      intro acc
      simp only [List.foldl_cons]
      cases hM : M n with
      | some mw =>
          rw [show routeMwStep M path acc n
              = { stack := (acc.stack ++ expandPart M mw.middlewares) ++ [mw.handler],
                  warnings := acc.warnings ++ mw.middlewares.filterMap (fun m =>
                    if (M m).isSome then none
                    else some (.mwOfMwNotFound path m mw.middleware)),
                  applied := acc.applied ++ [mw.middleware] } from by
            simp only [routeMwStep, hM]
            rw [innerFold_eq M path mw.middleware mw.middlewares]]
          rw [ih]
          simp [routeChainPart, routeWarnPart, routeAppliedPart, hM]
      | none =>
          rw [show routeMwStep M path acc n
              = { acc with warnings := acc.warnings ++ [Warning.routeMwNotFound path n] } from by
            simp only [routeMwStep, hM]]
          rw [ih]
          simp [routeChainPart, routeWarnPart, routeAppliedPart, hM]

/-- applyRoute computes, for every route, the decomposed chain, path, warnings
and applied names.  This is the master decomposition of `core.applyHandlers`'s
loop body. -/
theorem applyRoute_eq (G : String → Option Group) (M : String → Option Middleware)
    (roots : List Handler) (route : Route) :
    applyRoute G M roots route =
      { path := effectivePath G route,
        stack := rootChainPart roots ++ groupChainPart G M route
                   ++ routeChainPart M route.middlewares ++ [route.handler],
        warnings := groupWarnChain G M route
                      ++ routeWarnPart M (effectivePath G route) route.middlewares,
        applied := routeAppliedPart M route.middlewares } := by
  unfold applyRoute
  rw [rootStack_eq roots []]
  by_cases hg : route.group = ""
  · simp only [hg, ne_eq, not_true_eq_false, if_false, List.nil_append,
      routeMwFold_eq]
    simp [effectivePath, groupChainPart, groupWarnChain, hg]
  · cases hG : G route.group with
    | some g =>
        simp only [ne_eq, hg, not_false_eq_true, if_true, hG, List.nil_append,
          groupFold_eq, routeMwFold_eq]
        simp [effectivePath, groupChainPart, groupWarnChain, hg, hG]
    | none =>
        simp only [ne_eq, hg, not_false_eq_true, if_true, hG, List.nil_append,
          routeMwFold_eq]
        simp [effectivePath, groupChainPart, groupWarnChain, hg, hG]

theorem mem_routeWarnPart (M : String → Option Middleware) (path : String) :
    ∀ (names : List String) (w : Warning), w ∈ routeWarnPart M path names →
      isGroupWarning w = false := by
  intro names
  induction names with
  | nil => intro w h; simp [routeWarnPart] at h
  | cons n t ih =>
      intro w h
      simp only [routeWarnPart, List.flatMap_cons, List.mem_append] at h
      rcases h with h1 | h2
      · cases hM : M n with
        | some mw =>
            rw [hM] at h1
            rcases List.mem_filterMap.mp h1 with ⟨m, _, hm⟩
            by_cases hsome : (M m).isSome
            · simp [hsome] at hm
            · simp [hsome] at hm
              subst hm
              rfl
        | none =>
            rw [hM] at h1
            simp only [List.mem_singleton] at h1
            simp [h1, isGroupWarning]
      · exact ih w h2

/-- c1ClaimedRootPart renders claim C1's description of the root segment of
the chain: every configured root middleware is preceded by its expanded
nested-middleware references, in declared order, and the root middleware's
own handler is included. -/
def c1ClaimedRootPart (M : String → Option Middleware) (roots : List Handler) : List GinHandler :=
  roots.flatMap (fun h =>
    h.middlewares.flatMap (fun mw => expandPart M mw.middlewares ++ [mw.handler]))

/-- c1ClaimedChain renders claim C1's full chain description: claimed root
segment, then the resolved group middlewares, then the route's own
middlewares, then the terminal handler. -/
def c1ClaimedChain (G : String → Option Group) (M : String → Option Middleware)
    (roots : List Handler) (route : Route) : List GinHandler :=
  c1ClaimedRootPart M roots ++ groupChainPart G M route
    ++ routeChainPart M route.middlewares ++ [route.handler]

/-- mwRootA is a root middleware "a" (handler 1) with the nested-middleware
reference "b". -/
def mwRootA : Middleware := { handler := 1, middleware := "a", middlewares := ["b"] }

/-- mwRootB is the middleware "b" (handler 2) referenced by `mwRootA`. -/
def mwRootB : Middleware := { handler := 2, middleware := "b", middlewares := [] }

/-- rootBundleA is the configured root entry bundling `mwRootA`, as
`WithRootMiddlewares` receives it. -/
def rootBundleA : Handler := { routes := [], casualRoutes := [], groups := [], middlewares := [mwRootA] }

/-- tableAB is a merged middleware table resolving "a" and "b". -/
def tableAB : String → Option Middleware :=
  fun s => if s = "a" then some mwRootA else if s = "b" then some mwRootB else none

/-- routePlain is a groupless route with no middleware references and terminal
handler 9. -/
def routePlain : Route :=
  { middlewares := [], group := "", method := "GET", path := "/x", handler := 9 }

/-- C1 counterexample: with the single configured root middleware "a"
(handler 1) carrying the resolvable nested reference "b" (handler 2), claim
C1 predicts the chain [2, 1, 9] (nested reference expanded before the root
middleware), but `core.applyHandlers` assembles [1, 9]: nested references of
root middlewares are never expanded. -/
theorem c1_counterexample :
    (applyRoute (fun _ => none) tableAB [rootBundleA] routePlain).stack = [1, 9]
    ∧ c1ClaimedChain (fun _ => none) tableAB [rootBundleA] routePlain = [2, 1, 9]
    ∧ (applyRoute (fun _ => none) tableAB [rootBundleA] routePlain).stack
        ≠ c1ClaimedChain (fun _ => none) tableAB [rootBundleA] routePlain := by
  refine ⟨rfl, rfl, ?_⟩
  intro h
  simp [c1ClaimedChain, c1ClaimedRootPart, groupChainPart, routeChainPart, expandPart,
    applyRoute_eq, rootChainPart, rootBundleA, mwRootA, mwRootB, tableAB, routePlain] at h

/-- mwOnlyA is the root middleware A (handler 11) with no nested references. -/
def mwOnlyA : Middleware := { handler := 11, middleware := "a", middlewares := [] }

/-- mwOnlyB is the group middleware B (handler 12). -/
def mwOnlyB : Middleware := { handler := 12, middleware := "b", middlewares := [] }

/-- mwOnlyC is the route middleware C (handler 13). -/
def mwOnlyC : Middleware := { handler := 13, middleware := "c", middlewares := [] }

/-- rootBundleOnlyA is the configured root entry bundling only A. -/
def rootBundleOnlyA : Handler :=
  { routes := [], casualRoutes := [], groups := [], middlewares := [mwOnlyA] }

/-- groupG is a group "g" with middleware list [B]. -/
def groupG : Group := { name := "g", Path := "/api", middlewares := ["b"] }

/-- groupTableG resolves only "g". -/
def groupTableG : String → Option Group := fun s => if s = "g" then some groupG else none

/-- mwTableBC resolves "b" and "c". -/
def mwTableBC : String → Option Middleware :=
  fun s => if s = "b" then some mwOnlyB else if s = "c" then some mwOnlyC else none

/-- routeInG is a route in group "g" with middleware list [C] and terminal
handler 19. -/
def routeInG : Route :=
  { middlewares := ["c"], group := "g", method := "GET", path := "/p", handler := 19 }

/-- C1 (amended): the assembled chain is the configured root middlewares'
own handlers in declared order (nested-middleware references of root
middlewares are NOT expanded), then the resolved group middlewares (by
declared order, unresolved names skipped), then, for each resolved route
middleware, its expanded nested middlewares followed by the middleware
itself, then the terminal handler.  In particular, with root=[A], group=[B],
route=[C] and no nested references the chain is exactly [A, B, C, handler]. -/
theorem c1_chain_order_amended :
    (∀ (G : String → Option Group) (M : String → Option Middleware)
        (roots : List Handler) (route : Route),
      (applyRoute G M roots route).stack
        = rootChainPart roots ++ groupChainPart G M route
            ++ routeChainPart M route.middlewares ++ [route.handler])
    ∧ (applyRoute groupTableG mwTableBC [rootBundleOnlyA] routeInG).stack = [11, 12, 13, 19] := by
  constructor
  · intro G M roots route
    rw [applyRoute_eq]
  · rfl

/-- C5: a route whose non-empty group reference is absent from the merged
group table is still registered, at its own unmodified path, with the group's
middlewares skipped (the chain holds only root middlewares, route middlewares
and the terminal handler); the group-resolution block emits exactly one
warning (and it is the only warning at all when the route has no middleware
references of its own); the route still yields its registration. -/
theorem c5_unresolved_group_registers (st : CoreState) (roots : List Handler) (route : Route)
    (hg : route.group ≠ "") (hmiss : st.flatGroups route.group = none)
    (hr : route ∈ st.flatRoutes) :
    (applyRoute st.flatGroups st.flatMiddlewares roots route).path = route.path
    ∧ (applyRoute st.flatGroups st.flatMiddlewares roots route).stack
        = rootChainPart roots ++ routeChainPart st.flatMiddlewares route.middlewares
            ++ [route.handler]
    ∧ (applyRoute st.flatGroups st.flatMiddlewares roots route).warnings.filter isGroupWarning
        = [Warning.groupNotFound route.path route.group]
    ∧ (route.middlewares = [] →
        (applyRoute st.flatGroups st.flatMiddlewares roots route).warnings
          = [Warning.groupNotFound route.path route.group])
    ∧ ({ method := route.method, path := route.path,
         stack := (applyRoute st.flatGroups st.flatMiddlewares roots route).stack } : Registration)
        ∈ applyHandlers st roots := by
  have hpath : effectivePath st.flatGroups route = route.path := by
    simp [effectivePath, hg, hmiss]
  have hwarn : groupWarnChain st.flatGroups st.flatMiddlewares route
      = [Warning.groupNotFound route.path route.group] := by
    simp [groupWarnChain, hg, hmiss]
  have hchain : groupChainPart st.flatGroups st.flatMiddlewares route = [] := by
    simp [groupChainPart, hg, hmiss]
  refine ⟨?_, ?_, ?_, ?_, ?_⟩
  · rw [applyRoute_eq]; exact hpath
  · rw [applyRoute_eq]; simp [hchain]
  · rw [applyRoute_eq]
    simp [hwarn, hpath, List.filter_append, isGroupWarning]
    intro w hw
    exact mem_routeWarnPart st.flatMiddlewares route.path route.middlewares w hw
  · intro hmw
    rw [applyRoute_eq]
    simp [hwarn, hpath, hmw, routeWarnPart]
  · have hreg : routeRegistration st roots route
        = { method := route.method, path := route.path,
            stack := (applyRoute st.flatGroups st.flatMiddlewares roots route).stack } := by
      unfold routeRegistration
      rw [applyRoute_eq]
      simp [hpath]
    rw [← hreg]
    simp only [applyHandlers]
    exact List.mem_map_of_mem _ hr

/-- ghostRoute references the group "ghost" which no handler defines. -/
def ghostRoute : Route :=
  { middlewares := [], group := "ghost", method := "GET", path := "/p", handler := 5 }

/-- ghostState is a core state with one route and empty merged tables. -/
def ghostState : CoreState :=
  { flatGroups := fun _ => none, flatMiddlewares := fun _ => none, flatRoutes := [ghostRoute] }

/-- Witness for C5 at a concrete unresolved-group route. -/
theorem c5_unresolved_group_registers_witness :
    (applyRoute ghostState.flatGroups ghostState.flatMiddlewares [] ghostRoute).path = "/p"
    ∧ (applyRoute ghostState.flatGroups ghostState.flatMiddlewares [] ghostRoute).stack
        = rootChainPart [] ++ routeChainPart ghostState.flatMiddlewares ghostRoute.middlewares
            ++ [ghostRoute.handler]
    ∧ (applyRoute ghostState.flatGroups ghostState.flatMiddlewares [] ghostRoute).warnings.filter
        isGroupWarning = [Warning.groupNotFound "/p" "ghost"]
    ∧ (ghostRoute.middlewares = [] →
        (applyRoute ghostState.flatGroups ghostState.flatMiddlewares [] ghostRoute).warnings
          = [Warning.groupNotFound "/p" "ghost"])
    ∧ ({ method := "GET", path := "/p",
         stack := (applyRoute ghostState.flatGroups ghostState.flatMiddlewares [] ghostRoute).stack } : Registration)
        ∈ applyHandlers ghostState [] := by
  have h := c5_unresolved_group_registers ghostState [] ghostRoute
    (by decide) rfl (by simp [ghostState])
  exact h

/-- c6GroupSlash is a group "v3" whose path carries a trailing slash. -/
def c6GroupSlash : Group := { name := "v3", Path := "/api/v3/", middlewares := [] }

/-- c6GroupTableSlash resolves "v3" to `c6GroupSlash`. -/
def c6GroupTableSlash : String → Option Group :=
  fun s => if s = "v3" then some c6GroupSlash else none

/-- c6RouteSlash is a route of group "v3" whose path carries a leading slash. -/
def c6RouteSlash : Route :=
  { middlewares := [], group := "v3", method := "GET", path := "/products", handler := 7 }

/-- c6GroupBare is a group "v3" whose path has no trailing slash. -/
def c6GroupBare : Group := { name := "v3", Path := "/api/v3", middlewares := [] }

/-- c6GroupTableBare resolves "v3" to `c6GroupBare`. -/
def c6GroupTableBare : String → Option Group :=
  fun s => if s = "v3" then some c6GroupBare else none

/-- c6RouteBare is a route of group "v3" whose path has no leading slash. -/
def c6RouteBare : Route :=
  { middlewares := [], group := "v3", method := "GET", path := "products", handler := 7 }

/-- C6: for every resolved group, the effective path is the group path with
one trailing slash stripped, then "/", then the route path with one leading
slash stripped; and both slash placements of the claim's instances produce
"/api/v3/products". -/
theorem c6_effective_path :
    (∀ (G : String → Option Group) (M : String → Option Middleware)
        (roots : List Handler) (route : Route) (g : Group),
      route.group ≠ "" → G route.group = some g →
      (applyRoute G M roots route).path
        = trimSuffixGo g.Path "/" ++ "/" ++ trimPrefixGo route.path "/")
    ∧ (applyRoute c6GroupTableSlash (fun _ => none) [] c6RouteSlash).path = "/api/v3/products"
    ∧ (applyRoute c6GroupTableBare (fun _ => none) [] c6RouteBare).path = "/api/v3/products" := by
  refine ⟨?_, rfl, rfl⟩
  intro G M roots route g hg hG
  rw [applyRoute_eq]
  simp [effectivePath, hg, hG]

/-- Witness for C6 at the trailing-slash instance. -/
theorem c6_effective_path_witness :
    (applyRoute c6GroupTableSlash (fun _ => none) [] c6RouteSlash).path
      = trimSuffixGo c6GroupSlash.Path "/" ++ "/" ++ trimPrefixGo c6RouteSlash.path "/" :=
  c6_effective_path.1 c6GroupTableSlash (fun _ => none) [] c6RouteSlash c6GroupSlash
    (by decide) rfl

theorem getLast?_cons_ne_none (y : α) : ∀ ys : List α, (y :: ys).getLast? ≠ none := by
  intro ys
  induction ys generalizing y with
  | nil => simp
  | cons z t ih => rw [List.getLast?_cons_cons]; exact ih z

theorem foldl_lastUpd_eq (p : α → Bool) :
    ∀ (l : List α) (init : Option α),
      l.foldl (fun acc x => if p x then some x else acc) init
        = match (l.filter p).getLast? with
          | some v => some v
          | none => init := by
  intro l
  induction l with
  | nil => intro init; rfl
  | cons x t ih =>
      intro init
      simp only [List.foldl_cons]
      rw [ih]
      by_cases hx : p x
      · simp only [List.filter_cons, hx, if_true]
        cases hf : t.filter p with
        | nil => simp [hf]
        | cons y ys =>
            cases hgl : (y :: ys).getLast? with
            | none => exact absurd hgl (getLast?_cons_ne_none y ys)
            | some v => simp [hf, hgl, List.getLast?_cons_cons]
      · simp [List.filter_cons, hx]

theorem foldl_updMap_apply (key : α → String) :
    ∀ (l : List α) (m0 : String → Option α) (k : String),
      (l.foldl (fun m x => updMap m (key x) x) m0) k
        = l.foldl (fun acc x => if key x == k then some x else acc) (m0 k) := by
  intro l
  induction l with
  | nil => intro m0 k; rfl
  | cons x t ih =>
      intro m0 k
      simp only [List.foldl_cons]
      rw [ih]
      congr 1
      simp only [updMap]
      by_cases h : k = key x
      · simp [h]
      · simp [h, beq_iff_eq, Ne.symm h]

theorem getLast?_filter_append (p : α → Bool) (l1 l2 : List α) :
    ((l1 ++ l2).filter p).getLast?
      = match (l2.filter p).getLast? with
        | some v => some v
        | none => (l1.filter p).getLast? := by
  rw [List.filter_append]
  cases hf : l2.filter p with
  | nil => simp [hf]
  | cons y ys =>
      cases hgl : (y :: ys).getLast? with
      | none => exact absurd hgl (getLast?_cons_ne_none y ys)
      | some v => simp [List.getLast?_append_cons, hgl]

theorem flatHandlers_foldl (hs : List Handler) :
    ∀ st : CoreState,
      (hs.foldl flatHandlersStep st).flatRoutes
        = st.flatRoutes ++ hs.flatMap (fun h => h.routes ++ h.casualRoutes.map casualToRoute)
      ∧ (∀ k, (hs.foldl flatHandlersStep st).flatGroups k
          = match ((hs.flatMap (fun h => h.groups)).filter (fun g => g.name == k)).getLast? with
            | some g => some g
            | none => st.flatGroups k)
      ∧ (∀ k, (hs.foldl flatHandlersStep st).flatMiddlewares k
          = match ((hs.flatMap (fun h => h.middlewares)).filter
              (fun mw => mw.middleware.toLower == k)).getLast? with
            | some mw => some mw
            | none => st.flatMiddlewares k) := by
  induction hs with
  | nil =>
      intro st
      exact ⟨by simp, fun k => rfl, fun k => rfl⟩
  | cons h t ih =>
      intro st
      obtain ⟨ih1, ih2, ih3⟩ := ih (flatHandlersStep st h)
      refine ⟨?_, ?_, ?_⟩
      · rw [List.foldl_cons, ih1]
        simp [flatHandlersStep, List.flatMap_cons, List.append_assoc]
      · intro k
        rw [List.foldl_cons, ih2 k, List.flatMap_cons, getLast?_filter_append]
        have hstep : (flatHandlersStep st h).flatGroups k
            = match (h.groups.filter (fun g => g.name == k)).getLast? with
              | some g => some g
              | none => st.flatGroups k := by
          show (h.groups.foldl (fun g grp => updMap g grp.name grp) st.flatGroups) k = _
          rw [foldl_updMap_apply (fun grp : Group => grp.name) h.groups st.flatGroups k,
            foldl_lastUpd_eq (fun g : Group => g.name == k) h.groups (st.flatGroups k)]
          cases (List.filter (fun g : Group => g.name == k) h.groups).getLast? <;> rfl
        rw [hstep]
        cases ((t.flatMap (fun h => h.groups)).filter (fun g => g.name == k)).getLast? <;> rfl
      · intro k
        rw [List.foldl_cons, ih3 k, List.flatMap_cons, getLast?_filter_append]
        have hstep : (flatHandlersStep st h).flatMiddlewares k
            = match (h.middlewares.filter (fun mw => mw.middleware.toLower == k)).getLast? with
              | some mw => some mw
              | none => st.flatMiddlewares k := by
          show (h.middlewares.foldl (fun m mw => updMap m mw.middleware.toLower mw)
            st.flatMiddlewares) k = _
          rw [foldl_updMap_apply (fun mw : Middleware => mw.middleware.toLower) h.middlewares
              st.flatMiddlewares k,
            foldl_lastUpd_eq (fun mw : Middleware => mw.middleware.toLower == k) h.middlewares
              (st.flatMiddlewares k)]
          cases (List.filter (fun mw : Middleware => mw.middleware.toLower == k)
            h.middlewares).getLast? <;> rfl
        rw [hstep]
        cases ((t.flatMap (fun h => h.middlewares)).filter
          (fun mw => mw.middleware.toLower == k)).getLast? <;> rfl

/-- C8: merging handlers concatenates all routes (plain routes first, then the
converted casual routes, per handler, in handler order) with no deduplication,
while the group table maps a derived name to the LAST group contributed under
that name and the middleware table maps a lowercased name to the LAST
middleware contributed under that name — the later handler in the sequence
wins. -/
theorem c8_merge_last_wins (hs : List Handler) :
    (flatHandlers hs).flatRoutes
      = hs.flatMap (fun h => h.routes ++ h.casualRoutes.map casualToRoute)
    ∧ (∀ k, (flatHandlers hs).flatGroups k
        = ((hs.flatMap (fun h => h.groups)).filter (fun g => g.name == k)).getLast?)
    ∧ (∀ k, (flatHandlers hs).flatMiddlewares k
        = ((hs.flatMap (fun h => h.middlewares)).filter
            (fun mw => mw.middleware.toLower == k)).getLast?) := by
  obtain ⟨h1, h2, h3⟩ := flatHandlers_foldl hs emptyCore
  refine ⟨?_, ?_, ?_⟩
  · rw [show flatHandlers hs = hs.foldl flatHandlersStep emptyCore from rfl, h1]
    rfl
  · intro k
    rw [show flatHandlers hs = hs.foldl flatHandlersStep emptyCore from rfl, h2 k]
    cases ((hs.flatMap (fun h => h.groups)).filter (fun g => g.name == k)).getLast? <;> rfl
  · intro k
    rw [show flatHandlers hs = hs.foldl flatHandlersStep emptyCore from rfl, h3 k]
    cases ((hs.flatMap (fun h => h.middlewares)).filter
      (fun mw => mw.middleware.toLower == k)).getLast? <;> rfl

/-- TrackerErr models the sentinel error `ErrTerminating` returned by
`StartTask` after shutdown has begun. -/
inductive TrackerErr where
  | terminating
deriving DecidableEq, Repr

/-- ActiveTaskTracker models the Go struct (part_004): `count` is the atomic
in-flight counter (`atomic.Int32`, modelled as an unbounded integer: the
tracker's paired start/finish discipline keeps it far from the 32-bit bounds
and no claim depends on wrap-around); `terminating` is the observable state of
the internal context — `ctx.Err() != nil` exactly when `cancelFunc` has been
called.  The unbuffered `doneCh` rendezvous channel carries no data that later
operations read, so it is not part of the sequential state. -/
structure ActiveTaskTracker where
  count : Int
  terminating : Bool
deriving DecidableEq, Repr

/-- NewActiveTaskTracker mirrors the Go constructor (part_004:183-189): zero
active tasks and a fresh, uncancelled background context. -/
def NewActiveTaskTracker : ActiveTaskTracker := { count := 0, terminating := false }

/-- StartTask mirrors `ActiveTaskTracker.StartTask` (part_004:110-117): if the
context is cancelled it returns ErrTerminating without touching the state,
otherwise it adds one to the counter and returns nil.  The result pairs the
returned error with the post-state. -/
def StartTask (t : ActiveTaskTracker) : Option TrackerErr × ActiveTaskTracker :=
  if t.terminating then (some .terminating, t)
  else (none, { t with count := t.count + 1 })

/-- FinishTask mirrors `ActiveTaskTracker.FinishTask` (part_004:124-129):
subtract one from the counter; the conditional send on `doneCh` is a pure
synchronization signal and has no further state effect. -/
def FinishTask (t : ActiveTaskTracker) : ActiveTaskTracker :=
  { t with count := t.count - 1 }

/-- TaskCount mirrors `ActiveTaskTracker.TaskCount`. -/
def TaskCount (t : ActiveTaskTracker) : Int := t.count

/-- shutdownInitiate models the `t.cancelFunc()` call at the top of
`ActiveTaskTracker.Shutdown` (part_004:150-163): from then on
`ctx.Err() != nil`; cancelling an already-cancelled context changes nothing. -/
def shutdownInitiate (t : ActiveTaskTracker) : ActiveTaskTracker :=
  { t with terminating := true }

/-- TrackerOp enumerates the mutating tracker operations that may run between
shutdown initiation and a later StartTask call. -/
inductive TrackerOp where
  | start
  | finish
  | shutdown
deriving DecidableEq, Repr

/-- applyOp runs one operation for its state effect (StartTask's returned
error is discarded here). -/
def applyOp (t : ActiveTaskTracker) : TrackerOp → ActiveTaskTracker
  | .start => (StartTask t).2
  | .finish => FinishTask t
  | .shutdown => shutdownInitiate t

theorem terminating_persists (ops : List TrackerOp) :
    ∀ t : ActiveTaskTracker, t.terminating = true →
      (ops.foldl applyOp t).terminating = true := by
  induction ops with
  | nil => intro t h; exact h
  | cons op rest ih =>
      intro t h
      rw [List.foldl_cons]
      apply ih
      cases op <;> simp [applyOp, StartTask, FinishTask, shutdownInitiate, h]

/-- C2: once shutdown has been initiated, after any further sequence of
tracker operations the tracker is still Terminating, StartTask returns the
Terminating error, and the in-flight count (indeed the whole state) is left
unchanged; before termination is initiated, StartTask increments the count by
one and returns success. -/
theorem c2_starttask_gates_admission (t0 : ActiveTaskTracker) (ops : List TrackerOp)
    (t : ActiveTaskTracker) (hrun : t.terminating = false) :
    ((ops.foldl applyOp (shutdownInitiate t0)).terminating = true
      ∧ StartTask (ops.foldl applyOp (shutdownInitiate t0))
          = (some .terminating, ops.foldl applyOp (shutdownInitiate t0))
      ∧ (StartTask (ops.foldl applyOp (shutdownInitiate t0))).2.count
          = (ops.foldl applyOp (shutdownInitiate t0)).count)
    ∧ StartTask t = (none, { t with count := t.count + 1 }) := by
  have hT : (ops.foldl applyOp (shutdownInitiate t0)).terminating = true :=
    terminating_persists ops (shutdownInitiate t0) rfl
  refine ⟨⟨hT, ?_, ?_⟩, ?_⟩
  · simp [StartTask, hT]
  · simp [StartTask, hT]
  · simp [StartTask, hrun]

/-- Witness for C2: a tracker holding two tasks is shut down, one task
finishes and one rejected start is attempted; a separate running tracker
admits a task. -/
theorem c2_starttask_gates_admission_witness :
    (([TrackerOp.finish, TrackerOp.start].foldl applyOp
        (shutdownInitiate ⟨2, false⟩)).terminating = true
      ∧ StartTask ([TrackerOp.finish, TrackerOp.start].foldl applyOp
            (shutdownInitiate ⟨2, false⟩))
          = (some .terminating,
             [TrackerOp.finish, TrackerOp.start].foldl applyOp (shutdownInitiate ⟨2, false⟩))
      ∧ (StartTask ([TrackerOp.finish, TrackerOp.start].foldl applyOp
            (shutdownInitiate ⟨2, false⟩))).2.count
          = ([TrackerOp.finish, TrackerOp.start].foldl applyOp
              (shutdownInitiate ⟨2, false⟩)).count)
    ∧ StartTask ⟨0, false⟩ = (none, { count := 0 + 1, terminating := false }) :=
  c2_starttask_gates_admission ⟨2, false⟩ [TrackerOp.finish, TrackerOp.start] ⟨0, false⟩ rfl

/-- TaskTracker models the `TaskTracker` interface value installed into the
engine parameters: either the library's ActiveTaskTracker or some custom user
implementation (opaque). -/
inductive TaskTracker where
  | active (t : ActiveTaskTracker)
  | custom (id : Nat)
deriving DecidableEq, Repr

/-- EngineParams models the `params` configuration struct (log.go), restricted
to the data-carrying fields the claims concern. -/
structure EngineParams where
  rootMiddlewares : List Handler
  shutdownTimeout : Int
  taskTracker : Option TaskTracker
deriving DecidableEq, Repr

/-- WithTaskTracker mirrors the variadic option (log.go:126-135): when called
with no argument it appends a freshly created default tracker to the slice,
then installs the slice's first element. -/
def WithTaskTracker (tracker : List TaskTracker) (params : EngineParams) : EngineParams :=
  let tracker :=
    if tracker.length = 0 then tracker ++ [TaskTracker.active NewActiveTaskTracker]
    else tracker
  { params with taskTracker := tracker.head? }

/-- C10: calling WithTaskTracker with zero arguments installs a freshly
created default ActiveTaskTracker (count zero, not terminating); calling it
with at least one argument installs exactly the first supplied tracker. -/
theorem c10_with_task_tracker :
    (∀ p : EngineParams,
      (WithTaskTracker [] p).taskTracker = some (.active NewActiveTaskTracker)
      ∧ NewActiveTaskTracker.count = 0 ∧ NewActiveTaskTracker.terminating = false)
    ∧ ∀ (p : EngineParams) (t : TaskTracker) (rest : List TaskTracker),
        (WithTaskTracker (t :: rest) p).taskTracker = some t := by
  refine ⟨fun p => ⟨rfl, rfl, rfl⟩, fun p t rest => ?_⟩
  simp [WithTaskTracker]

namespace Casual

/-- GoVal models a Go `interface{}` value stored in response metadata. -/
inductive GoVal where
  | int (n : Int)
  | str (s : String)
  | other (id : Nat)
deriving DecidableEq, Repr

/-- MetaMap models a Go `map[string]interface{}`; lookups use the first
matching key, and an insert of a fresh key appends. -/
abbrev MetaMap := List (String × GoVal)

/-- HttpResponseParams mirrors the `httpResponseParams` struct: all three
fields are nilable pointers/maps. -/
structure HttpResponseParams where
  statusCode : Option Int
  meta : Option MetaMap
  lang : Option String
deriving DecidableEq, Repr

/-- HttpResponseParamsCb enumerates the three option constructors of
http_response_params.go; `withMeta` carries an optional map because a Go map
argument may itself be nil. -/
inductive HttpResponseParamsCb where
  | withHttpStatusCode (code : Int)
  | withLang (lang : String)
  | withMeta (meta : Option MetaMap)
deriving DecidableEq, Repr

/-- applyParamsCb runs one option callback over the params. -/
def applyParamsCb (params : HttpResponseParams) :
    HttpResponseParamsCb → HttpResponseParams
  | .withHttpStatusCode code => { params with statusCode := some code }
  | .withLang lang => { params with lang := some lang }
  | .withMeta m => { params with meta := m }

/-- CasualData models, at the granularity `reflect` inspects it, the value a
casual handler returned: a slice, an array, or any other (scalar) value. -/
inductive CasualData where
  | slice (elems : List GoVal)
  | array (elems : List GoVal)
  | scalar (v : GoVal)
deriving DecidableEq, Repr

/-- CasualData.isSeq is the `Kind() == Slice || Kind() == Array` test of
NewHTTPResponse. -/
def CasualData.isSeq : CasualData → Bool
  | .slice _ => true
  | .array _ => true
  | .scalar _ => false

/-- CasualData.len is `reflect.Value.Len()` (a Go int). -/
def CasualData.len : CasualData → Int
  | .slice es => es.length
  | .array es => es.length
  | .scalar _ => 0

/-- HttpResponse mirrors `casual.HttpResponse[T]`. -/
structure HttpResponse where
  Status : Int
  Data : Option CasualData
  Meta : Option MetaMap
deriving DecidableEq, Repr

/-- NewHTTPResponse mirrors `casual.NewHTTPResponse` (http_response_params
sibling, http_error_response.go:136-171 region): fold the options over
zero-valued params; when the (dereferenced) data is a non-nil slice or array,
materialize the metadata map if nil and insert `total = len(data)` unless the
key already exists; default the status to 200 when no option set it; return
the status twice — as the first component and inside the envelope. -/
def NewHTTPResponse (data : Option CasualData) (opts : List HttpResponseParamsCb) :
    Int × HttpResponse :=
  let params := opts.foldl applyParamsCb { statusCode := none, meta := none, lang := none }
  let metadata := params.meta
  let metadata :=
    match data with
    | some d =>
        if d.isSeq then
          let m0 := metadata.getD []
          if (m0.lookup "total").isNone then some (m0 ++ [("total", GoVal.int d.len)])
          else some m0
        else metadata
    | none => metadata
  let statusCode := params.statusCode.getD 200
  (statusCode, { Status := statusCode, Data := data, Meta := metadata })

/-- HttpErrorField mirrors `casual.HttpErrorField`. -/
structure HttpErrorField where
  Field : String
  Issue : String
deriving DecidableEq, Repr

/-- FieldError models a `validator.FieldError` through the three accessors the
casual package consults: `Field()`, `Tag()`, `Param()`. -/
structure FieldError where
  field : String
  tag : String
  param : String
deriving DecidableEq, Repr

/-- validationErrors mirrors the base per-validation-tag message table of
http_validation_errors.go (before any user extension). -/
def validationErrors : String → Option (Option String → FieldError → String) := fun tag =>
  match tag with
  | "required" => some (fun _ _ => "Field is required")
  | "lte" => some (fun _ fe => "Should be less than " ++ fe.param)
  | "gte" => some (fun _ fe => "Should be greater than " ++ fe.param)
  | "oneof" => some (fun _ fe =>
      "Should be one of [" ++ String.intercalate "," (fe.param.split (fun c => c = ' ')) ++ "]")
  | "notempty" => some (fun _ _ => "Param should not be empty")
  | "email" => some (fun _ fe => "Param should be valid email " ++ fe.param)
  | "url" => some (fun _ _ => "Param should be valid url")
  | "min" => some (fun _ fe => "Param should be greater than " ++ fe.param)
  | "max" => some (fun _ fe => "Param should be less than " ++ fe.param)
  | _ => none

/-- getValidationErrorText mirrors `getValidationErrorText`
(http_validation_errors.go:43-49): table hit produces the tag's message,
anything else produces "Unknown error". -/
def getValidationErrorText (lang : Option String) (fe : FieldError) : String :=
  match validationErrors fe.tag with
  | some msg => msg lang fe
  | none => "Unknown error"

/-- HttpError mirrors `casual.HttpError`: the embedded error (its message),
the private frontend message and http code, and the exported Code, Message
and Details fields. -/
structure HttpError where
  errMsg : String
  frontendMessage : Option String
  httpCode : Int
  Code : Option GoVal
  Message : String
  Details : List HttpErrorField
deriving DecidableEq, Repr

/-- GetHttpStatusCode mirrors `HttpError.GetHttpStatusCode`. -/
def HttpError.GetHttpStatusCode (e : HttpError) : Int := e.httpCode

/-- GetMessage mirrors `HttpError.GetMessage`: frontend message first, then
the exported Message if non-empty, then the embedded error's message. -/
def HttpError.GetMessage (e : HttpError) : String :=
  match e.frontendMessage with
  | some m => m
  | none => if e.Message ≠ "" then e.Message else e.errMsg

/-- zeroHttpError is the zero value `var httpErr HttpError`. -/
def zeroHttpError : HttpError :=
  { errMsg := "", frontendMessage := none, httpCode := 0, Code := none,
    Message := "", Details := [] }

/-- GoError models the dynamic error value passed to NewHttpErrorResponse at
the granularity of its two `errors.As` probes: an HttpError, a
`validator.ValidationErrors` slice (with the aggregate text its `Error()`
method would return), or any other error (with its message). -/
inductive GoError where
  | httpErr (he : HttpError)
  | validation (ve : List FieldError) (errText : String)
  | plain (msg : String)
deriving DecidableEq, Repr

/-- errorString is `err.Error()`. -/
def GoError.errorString : GoError → String
  | .httpErr he => he.errMsg
  | .validation _ errText => errText
  | .plain msg => msg

/-- HttpErrorResponse mirrors `casual.HttpErrorResponse`. -/
structure HttpErrorResponse where
  Status : Int
  Error : HttpError
  Meta : Option MetaMap
deriving DecidableEq, Repr

/-- NewHttpErrorResponse mirrors `casual.NewHttpErrorResponse`
(http_error_response.go:74-121).  The status pointer is preset to 500 before
the options are folded; the language defaults to "en".  The `errors.As`
probes are mirrored by the match: an HttpError overrides the status with its
own code, supplies `GetMessage()` as the message and is itself copied into the
result (keeping its Code and Details); a ValidationErrors value sets the
status to 422 once per element (so an empty slice leaves the preset status)
and appends one detail per failed field with the table-produced issue text;
any other error keeps the preset status and the zero HttpError.  Finally the
message is written into the result's Message field and the status is returned
both as the first component and inside the envelope (`params.statusCode` can
no longer be nil at the final nil-check, so `getD 500` is exact). -/
def NewHttpErrorResponse (err : GoError) (opts : List HttpResponseParamsCb) :
    Int × HttpErrorResponse :=
  let params := opts.foldl applyParamsCb { statusCode := some 500, meta := none, lang := none }
  let params := if params.lang.isNone then { params with lang := some "en" } else params
  let errorMessage := err.errorString
  let sme : Option Int × String × HttpError :=
    match err with
    | .httpErr he => (some he.GetHttpStatusCode, he.GetMessage, he)
    | .validation ve _ =>
        (if ve.isEmpty then params.statusCode else some 422,
         errorMessage,
         { zeroHttpError with
             Details := ve.map (fun fe =>
               { Field := fe.field, Issue := getValidationErrorText params.lang fe }) })
    | .plain _ => (params.statusCode, errorMessage, zeroHttpError)
  let httpErr := { sme.2.2 with Message := sme.2.1 }
  let statusCode := sme.1.getD 500
  (statusCode, { Status := statusCode, Error := httpErr, Meta := params.meta })

/-- hasStatusOpt tests whether an option is a WithHttpStatusCode. -/
def hasStatusOpt : HttpResponseParamsCb → Bool
  | .withHttpStatusCode _ => true
  | _ => false

theorem foldl_params_statusCode :
    ∀ opts : List HttpResponseParamsCb, opts.all (fun o => !hasStatusOpt o) = true →
      ∀ p0 : HttpResponseParams, (opts.foldl applyParamsCb p0).statusCode = p0.statusCode := by
  intro opts
  induction opts with
  | nil => intro _ p0; rfl
  | cons o rest ih =>
      intro h p0
      simp only [List.all_cons, Bool.and_eq_true] at h
      rw [List.foldl_cons, ih h.2]
      cases o with
      | withHttpStatusCode c => simp [hasStatusOpt] at h
      | withLang l => rfl
      | withMeta m => rfl

theorem statusCode_lang_default (p : HttpResponseParams) :
    (if p.lang.isNone then { p with lang := some "en" } else p).statusCode
      = p.statusCode := by
  by_cases h : p.lang.isNone <;> simp [h]

/-- C9: for every error, data value and option list, the status code returned
as the first result of NewHttpErrorResponse and of NewHTTPResponse equals the
Status field of the returned envelope; with no status option supplied this
value is 500 for a plain (non-HttpError, non-validation) error and 200 for
the success envelope. -/
theorem c9_status_code_consistency (err : GoError) (opts : List HttpResponseParamsCb)
    (data : Option CasualData) (opts2 : List HttpResponseParamsCb) :
    (NewHttpErrorResponse err opts).1 = (NewHttpErrorResponse err opts).2.Status
    ∧ (NewHTTPResponse data opts2).1 = (NewHTTPResponse data opts2).2.Status
    ∧ (opts.all (fun o => !hasStatusOpt o) = true →
        ∀ msg, err = .plain msg → (NewHttpErrorResponse err opts).1 = 500)
    ∧ (opts2.all (fun o => !hasStatusOpt o) = true → (NewHTTPResponse data opts2).1 = 200) := by
  refine ⟨rfl, rfl, ?_, ?_⟩
  · intro h msg hm
    subst hm
    simp only [NewHttpErrorResponse, GoError.errorString]
    rw [statusCode_lang_default, foldl_params_statusCode opts h]
    rfl
  · intro h
    simp only [NewHTTPResponse]
    rw [foldl_params_statusCode opts2 h]
    rfl

/-- Witness for C9 at a plain error and a scalar success value, no options. -/
theorem c9_status_code_consistency_witness :
    (NewHttpErrorResponse (.plain "boom") []).1 = 500
    ∧ (NewHTTPResponse (some (.scalar (.int 0))) []).1 = 200 :=
  ⟨(c9_status_code_consistency (.plain "boom") [] none []).2.2.1 rfl "boom" rfl,
   (c9_status_code_consistency (.plain "boom") [] (some (.scalar (.int 0))) []).2.2.2 rfl⟩

/-- resolvedLang: the language hint NewHttpErrorResponse settles on — the last
WithLang option if any, otherwise "en". -/
def resolvedLang (opts : List HttpResponseParamsCb) : Option String :=
  if ((opts.foldl applyParamsCb
        { statusCode := some 500, meta := none, lang := none }).lang).isNone
  then some "en"
  else (opts.foldl applyParamsCb
        { statusCode := some 500, meta := none, lang := none }).lang

theorem lang_resolution (p : HttpResponseParams) :
    (if p.lang.isNone then { p with lang := some "en" } else p).lang
      = if p.lang.isNone then some "en" else p.lang := by
  by_cases h : p.lang.isNone <;> simp [h]

/-- C7: an error value carrying a non-empty set of field-level validation
failures produces status 422 (returned and in the envelope) and exactly one
details entry per failed field; each issue text comes from the
per-validation-tag message table via getValidationErrorText, and every field
whose tag is absent from the table gets the issue "Unknown error". -/
theorem c7_validation_error_mapping (ve : List FieldError) (errText : String)
    (opts : List HttpResponseParamsCb) (hne : ve ≠ []) :
    (NewHttpErrorResponse (.validation ve errText) opts).1 = 422
    ∧ (NewHttpErrorResponse (.validation ve errText) opts).2.Status = 422
    ∧ (NewHttpErrorResponse (.validation ve errText) opts).2.Error.Details
        = ve.map (fun fe =>
            { Field := fe.field, Issue := getValidationErrorText (resolvedLang opts) fe })
    ∧ (NewHttpErrorResponse (.validation ve errText) opts).2.Error.Details.length = ve.length
    ∧ ∀ fe ∈ ve, validationErrors fe.tag = none →
        ({ Field := fe.field, Issue := "Unknown error" } : HttpErrorField)
          ∈ (NewHttpErrorResponse (.validation ve errText) opts).2.Error.Details := by
  have hempty : ve.isEmpty = false := by
    cases ve with
    | nil => exact absurd rfl hne
    | cons a l => rfl
  have hdet : (NewHttpErrorResponse (.validation ve errText) opts).2.Error.Details
      = ve.map (fun fe =>
          { Field := fe.field, Issue := getValidationErrorText (resolvedLang opts) fe }) := by
    simp only [NewHttpErrorResponse, GoError.errorString, hempty]
    rw [lang_resolution]
    rfl
  refine ⟨?_, ?_, hdet, ?_, ?_⟩
  · simp only [NewHttpErrorResponse, GoError.errorString, hempty]
    rfl
  · simp only [NewHttpErrorResponse, GoError.errorString, hempty]
    rfl
  · rw [hdet, List.length_map]
  · intro fe hfe htag
    rw [hdet]
    have : ({ Field := fe.field, Issue := "Unknown error" } : HttpErrorField)
        = { Field := fe.field, Issue := getValidationErrorText (resolvedLang opts) fe } := by
      simp [getValidationErrorText, htag]
    rw [this]
    exact List.mem_map_of_mem _ hfe

/-- Witness for C7: one failed field with an unmapped tag, no options. -/
theorem c7_validation_error_mapping_witness :
    (NewHttpErrorResponse (.validation [⟨"Name", "weirdtag", ""⟩] "boom") []).1 = 422
    ∧ (NewHttpErrorResponse (.validation [⟨"Name", "weirdtag", ""⟩] "boom") []).2.Error.Details
        = [{ Field := "Name", Issue := getValidationErrorText (resolvedLang []) ⟨"Name", "weirdtag", ""⟩ }]
    ∧ ({ Field := "Name", Issue := "Unknown error" } : HttpErrorField)
        ∈ (NewHttpErrorResponse (.validation [⟨"Name", "weirdtag", ""⟩] "boom") []).2.Error.Details := by
  have h := c7_validation_error_mapping [⟨"Name", "weirdtag", ""⟩] "boom" [] (by simp)
  exact ⟨h.1, h.2.2.1, h.2.2.2.2 ⟨"Name", "weirdtag", ""⟩ (by simp) rfl⟩

end Casual

theorem takeWhile_all_append (f : α → Bool) :
    ∀ (m rest : List α), (∀ c ∈ m, f c = true) →
      (m ++ rest).takeWhile f = m ++ rest.takeWhile f
      ∧ (m ++ rest).dropWhile f = rest.dropWhile f := by
  intro m
  induction m with
  | nil => intro rest _; simp
  | cons x t ih =>
      intro rest h
      have hx : f x = true := h x (List.mem_cons_self x t)
      have ht := ih rest (fun c hc => h c (List.mem_cons_of_mem x hc))
      simp [List.takeWhile_cons, List.dropWhile_cons, hx, ht.1, ht.2]

theorem dropWhile_append_left (f : α → Bool) :
    ∀ (l1 l2 : List α), l1.dropWhile f ≠ [] →
      (l1 ++ l2).dropWhile f = l1.dropWhile f ++ l2 := by
  intro l1
  induction l1 with
  | nil => intro l2 h; exact absurd rfl h
  | cons x t ih =>
      intro l2 h
      cases hx : f x with
      | true =>
          rw [List.dropWhile_cons_of_pos hx] at h
          simp [List.dropWhile_cons, hx, ih l2 h]
      | false => simp [List.dropWhile_cons, hx]

theorem dropWhile_head_props (f : α → Bool) :
    ∀ (l : List α) (b : α) (bs : List α), l.dropWhile f = b :: bs →
      f b = false ∧ b ∈ l := by
  intro l
  induction l with
  | nil => intro b bs h; simp at h
  | cons x t ih =>
      intro b bs h
      cases hx : f x with
      | true =>
          rw [List.dropWhile_cons_of_pos hx] at h
          obtain ⟨h1, h2⟩ := ih b bs h
          exact ⟨h1, List.mem_cons_of_mem x h2⟩
      | false =>
          rw [List.dropWhile_cons_of_neg (by simp [hx])] at h
          obtain ⟨hb, hbs⟩ := List.cons.inj h
          subst hb
          subst hbs
          exact ⟨hx, List.mem_cons_self x t⟩

theorem dropWhile_ne_nil_of_mem_false (f : α → Bool) :
    ∀ (l : List α) (c : α), c ∈ l → f c = false → l.dropWhile f ≠ [] := by
  intro l
  induction l with
  | nil => intro c hc; simp at hc
  | cons x t ih =>
      intro c hc hfc
      cases hx : f x with
      | true =>
          rw [List.dropWhile_cons_of_pos hx]
          rcases List.mem_cons.mp hc with rfl | hct
          · rw [hx] at hfc; cases hfc
          · exact ih c hct hfc
      | false =>
          rw [List.dropWhile_cons_of_neg (by simp [hx])]
          simp

/-- C3: the parser accepts exactly the strings matching the case-insensitive
pattern of a 3–10 letter method (letters in the RE2 case-folded sense of
`isReLetter`), one space, and a remainder; the method
is returned verbatim (not case-normalized, and it contains no space, so the
split is at the first space) and the path is everything after that first
space.  Strings containing no space at all, or whose leading segment before
the first space is not a 3–10 letter token, fail with "invalid route tag".
(The remainder-side conditions `p ≠ []` and no-newline render the claim's
`.+` under RE2 semantics, where `.` does not match a newline and `$` anchors
at end of text.) -/
theorem c3_parse_route_tag (tag : String) (m p : List Char) :
    ((tag.data = m ++ ' ' :: p ∧ (∀ c ∈ m, isReLetter c = true) ∧ 3 ≤ m.length
        ∧ m.length ≤ 10 ∧ p ≠ [] ∧ '\n' ∉ p) →
      parseRouteTag tag = .ok (⟨m⟩, ⟨p⟩) ∧ ' ' ∉ m)
    ∧ (((∀ c ∈ tag.data, c ≠ ' ')
        ∨ (∃ m' p', tag.data = m' ++ ' ' :: p' ∧ ' ' ∉ m'
            ∧ ¬((∀ c ∈ m', isReLetter c = true) ∧ 3 ≤ m'.length ∧ m'.length ≤ 10))) →
      parseRouteTag tag = .error "invalid route tag") := by
  constructor
  · rintro ⟨hdecomp, hlet, h3, h10, hpne, hnl⟩
    have hsp : isReLetter ' ' = false := rfl
    obtain ⟨htake0, hdrop0⟩ := takeWhile_all_append isReLetter m (' ' :: p) hlet
    have htake2 : (m ++ ' ' :: p).takeWhile isReLetter = m := by
      rw [htake0, List.takeWhile_cons, hsp]
      simp
    have hdrop2 : (m ++ ' ' :: p).dropWhile isReLetter = ' ' :: p := by
      rw [hdrop0, List.dropWhile_cons_of_neg (by simp [hsp])]
    constructor
    · have hguard : (3 ≤ m.length && m.length ≤ 10 && p.all (fun c => c ≠ '\n')) = true := by
        simp only [Bool.and_eq_true, decide_eq_true_eq, List.all_eq_true]
        exact ⟨⟨by simpa using h3, by simpa using h10⟩,
          fun c hc => by simpa using fun he : c = '\n' => hnl (he ▸ hc)⟩
      have hcap : routeTagCapture tag = some (⟨m⟩, ⟨p⟩) := by
        simp only [routeTagCapture, hdecomp, htake2, hdrop2]
        rw [if_pos trivial, if_pos hguard]
      simp only [parseRouteTag, hcap]
    · intro hmem
      exact absurd (hlet ' ' hmem) (by decide)
  · rintro (hnospace | ⟨m', p', hdec, hnsp, hbad⟩)
    · cases hdropT : tag.data.dropWhile isReLetter with
      | nil => simp only [parseRouteTag, routeTagCapture, hdropT]
      | cons b bs =>
          obtain ⟨hfb, hbmem⟩ := dropWhile_head_props isReLetter tag.data b bs hdropT
          have hbne : ¬(b = ' ') := hnospace b hbmem
          have hcap : routeTagCapture tag = none := by
            simp only [routeTagCapture, hdropT]
            rw [if_neg hbne]
          simp only [parseRouteTag, hcap]
    · by_cases hall : ∀ c ∈ m', isReLetter c = true
      · have hlen : ¬(3 ≤ m'.length ∧ m'.length ≤ 10) := fun hcon =>
          hbad ⟨hall, hcon.1, hcon.2⟩
        have hsp : isReLetter ' ' = false := rfl
        obtain ⟨htake0, hdrop0⟩ := takeWhile_all_append isReLetter m' (' ' :: p') hall
        have htake2 : (m' ++ ' ' :: p').takeWhile isReLetter = m' := by
          rw [htake0, List.takeWhile_cons, hsp]
          simp
        have hdrop2 : (m' ++ ' ' :: p').dropWhile isReLetter = ' ' :: p' := by
          rw [hdrop0, List.dropWhile_cons_of_neg (by simp [hsp])]
        have hguard : ¬((3 ≤ m'.length && m'.length ≤ 10
            && p'.all (fun c => c ≠ '\n')) = true) := by
          simp only [Bool.and_eq_true, decide_eq_true_eq, List.all_eq_true]
          rintro ⟨⟨ha, hb⟩, -⟩
          exact hlen ⟨ha, hb⟩
        have hcap : routeTagCapture tag = none := by
          simp only [routeTagCapture, hdec, htake2, hdrop2]
          rw [if_pos trivial, if_neg hguard]
        simp only [parseRouteTag, hcap]
      · push_neg at hall
        obtain ⟨c, hcm, hcne⟩ := hall
        have hcf : isReLetter c = false := by simpa using hcne
        have hne_nil : m'.dropWhile isReLetter ≠ [] :=
          dropWhile_ne_nil_of_mem_false isReLetter m' c hcm hcf
        cases hdm : m'.dropWhile isReLetter with
        | nil => exact absurd hdm hne_nil
        | cons b bs =>
            obtain ⟨hfb, hbmem⟩ := dropWhile_head_props isReLetter m' b bs hdm
            have hbne : ¬(b = ' ') := fun he => hnsp (he ▸ hbmem)
            have hdropTag : tag.data.dropWhile isReLetter = b :: (bs ++ ' ' :: p') := by
              rw [hdec, dropWhile_append_left isReLetter m' (' ' :: p') hne_nil, hdm]
              simp
            have hcap : routeTagCapture tag = none := by
              simp only [routeTagCapture, hdropTag]
              rw [if_neg hbne]
            simp only [parseRouteTag, hcap]

/-- Witness for C3 at a valid tag and at a too-short method token. -/
theorem c3_parse_route_tag_witness :
    parseRouteTag "GET /foo" = .ok (⟨['G', 'E', 'T']⟩, ⟨['/', 'f', 'o', 'o']⟩)
    ∧ parseRouteTag "xy /bar" = .error "invalid route tag" := by
  constructor
  · exact ((c3_parse_route_tag "GET /foo" ['G', 'E', 'T'] ['/', 'f', 'o', 'o']).1
      ⟨by decide, by decide, by decide, by decide, by decide, by decide⟩).1
  · exact (c3_parse_route_tag "xy /bar" [] []).2
      (Or.inr ⟨['x', 'y'], ['/', 'b', 'a', 'r'], by decide, by decide, by decide⟩)

end Httpbara
